import Mathlib

/-!
Shallow embedding of the beam-statistics routines of
`src/Resultats/PlasmaMLPALLAS_Routine.py` (functions
`compute_emittance_and_twiss` and `compute_rms_size`).

Modelling choices:
* A floating-point input value is `Option ℚ`: `some v` is a finite value,
  `none` stands for a non-finite value (NaN or ±∞).  `np.isfinite` is the
  `some`-test; comparing a non-finite value with a bound never passes the
  mask because the mask conjoins `np.isfinite`.
* Exact real arithmetic replaces IEEE floats: the covariance terms and the
  determinant are rationals, the final square roots live in `ℝ`.
* NaN results are the sentinel `none : Option ℝ`.  In the Python source
  `eps` can be NaN and `eps > 0` is then `False`; here `eps` is an
  `Option ℝ` and the guards are expanded accordingly (see `twissCore`).
* The Python functions read the module-level bounds `pos_lim` and
  `angle_lim_mrad`; the embedding takes the bounds as parameters (as the
  spec's signatures do) and also provides the module-level constants.
-/

/-- A closed filter interval `[lo, hi]`, e.g. `pos_lim = (-5, 5)`. -/
abbrev Bounds := ℚ × ℚ

/-- Module-level constant `pos_lim = (-5, 5)` (mm). -/
def pos_lim : Bounds := (-5, 5)

/-- Module-level constant `angle_lim_mrad = (-5, 5)` (mrad). -/
def angle_lim_mrad : Bounds := (-5, 5)

/-- The mask-and-gather step of `compute_emittance_and_twiss`:
`mask = isfinite x & isfinite θ & (x ≥ lo) & (x ≤ hi) & (θ ≥ lo') & (θ ≤ hi')`
followed by `x[mask]`, `theta[mask]` on the zipped samples.  A pair with a
non-finite component fails `np.isfinite` and is dropped regardless of the
bounds. -/
def filteredPairs (pb ab : Bounds) (l : List (Option ℚ × Option ℚ)) :
    List (ℚ × ℚ) :=
  l.filterMap fun p =>
    match p with
    | (some vx, some vt) =>
        if pb.1 ≤ vx ∧ vx ≤ pb.2 ∧ ab.1 ≤ vt ∧ vt ≤ ab.2 then
          some (vx, vt)
        else
          none
    | _ => none

/-- The mask-and-gather step of `compute_rms_size`:
`mask = isfinite x & (x ≥ lo) & (x ≤ hi)` followed by `x[mask]`. -/
def filteredPos (pb : Bounds) (x : List (Option ℚ)) : List ℚ :=
  x.filterMap fun v =>
    match v with
    | some r => if pb.1 ≤ r ∧ r ≤ pb.2 then some r else none
    | none => none

/-- `np.mean` of a list of exact values. -/
def listMean (l : List ℚ) : ℚ := l.sum / l.length

/-- `np.sum((x - np.mean(x))**2)`: the sum of squared deviations from the
mean, the common numerator of the variance estimators. -/
def sqDevSum (l : List ℚ) : ℚ :=
  (l.map fun v => (v - listMean l) ^ 2).sum

/-- Sum of products of deviations, the numerator of the covariance term. -/
def prodDevSum (l : List (ℚ × ℚ)) : ℚ :=
  (l.map fun p =>
    (p.1 - listMean (l.map Prod.fst)) * (p.2 - listMean (l.map Prod.snd))).sum

/-- `cov[0,0]` of `np.cov(np.vstack([x, theta]), ddof=1)`: variance of the
positions with the unbiased `n - 1` divisor. -/
def covXX (l : List (ℚ × ℚ)) : ℚ :=
  sqDevSum (l.map Prod.fst) / ((l.length : ℚ) - 1)

/-- `cov[0,1]` of `np.cov(..., ddof=1)`: the position/angle covariance with
the unbiased `n - 1` divisor. -/
def covXT (l : List (ℚ × ℚ)) : ℚ :=
  prodDevSum l / ((l.length : ℚ) - 1)

/-- `cov[1,1]` of `np.cov(..., ddof=1)`: variance of the angles with the
unbiased `n - 1` divisor. -/
def covTT (l : List (ℚ × ℚ)) : ℚ :=
  sqDevSum (l.map Prod.snd) / ((l.length : ℚ) - 1)

/-- `det = sig_x2*sig_t2 - sig_xt**2`. -/
def covDet (l : List (ℚ × ℚ)) : ℚ :=
  covXX l * covTT l - covXT l ^ 2

/-- The result tuple `(eps, alpha, beta, gamma)` of
`compute_emittance_and_twiss`; each component is a finite real or the NaN
sentinel `none`. -/
structure TwissResult where
  eps : Option ℝ
  alpha : Option ℝ
  beta : Option ℝ
  gamma : Option ℝ

/-- Statistics part of `compute_emittance_and_twiss`, acting on the already
filtered samples `f`:

* `if len(x) < 2: return nan, nan, nan, nan`
* `eps = np.sqrt(det) if det > 0 else np.nan`
* `alpha = -sig_xt/eps if eps > 0 else np.nan`, similarly `beta`, `gamma`.

When `det ≤ 0` the Python `eps` is NaN, `eps > 0` is then `False`, and all
of `alpha`, `beta`, `gamma` are NaN; that case is the final `else`.  When
`det > 0`, `eps = sqrt det` and the `eps > 0` guards compare that real
with `0` exactly as the source does. -/
noncomputable def twissCore (f : List (ℚ × ℚ)) : TwissResult :=
  if f.length < 2 then ⟨none, none, none, none⟩
  else
    let sig_x2 := covXX f
    let sig_xt := covXT f
    let sig_t2 := covTT f
    let det := sig_x2 * sig_t2 - sig_xt ^ 2
    if 0 < det then
      let e : ℝ := Real.sqrt (det : ℝ)
      { eps := some e
        alpha := if 0 < e then some (-(sig_xt : ℝ) / e) else none
        beta := if 0 < e then some ((sig_x2 : ℝ) / e) else none
        gamma := if 0 < e then some ((sig_t2 : ℝ) / e) else none }
    else ⟨none, none, none, none⟩

/-- `compute_emittance_and_twiss(x, theta)` with the bounds made explicit
parameters (the source reads the module constants `pos_lim` and
`angle_lim_mrad`): mask-and-gather, then the covariance statistics. -/
noncomputable def compute_emittance_and_twiss (pb ab : Bounds)
    (x theta : List (Option ℚ)) : TwissResult :=
  twissCore (filteredPairs pb ab (x.zip theta))

/-- Statistics part of `compute_rms_size` on the filtered samples:
`return np.nan` if empty, otherwise `np.sqrt(np.mean((x - np.mean(x))**2))`
(the mean of squared deviations divides by `n`). -/
noncomputable def rmsCore (f : List ℚ) : Option ℝ :=
  if f.length = 0 then none
  else some (Real.sqrt ((sqDevSum f / (f.length : ℚ) : ℚ) : ℝ))

/-- `compute_rms_size(x)` with the bound made an explicit parameter. -/
noncomputable def compute_rms_size (pb : Bounds) (x : List (Option ℚ)) :
    Option ℝ :=
  rmsCore (filteredPos pb x)

/-! ### Helper lemmas shared by the claim theorems -/

lemma covDet_def (f : List (ℚ × ℚ)) :
    covDet f = covXX f * covTT f - covXT f ^ 2 := rfl

lemma twissCore_short (f : List (ℚ × ℚ)) (h : f.length < 2) :
    twissCore f = ⟨none, none, none, none⟩ := by
  simp only [twissCore]
  rw [if_pos h]

lemma sqrt_covDet_pos {f : List (ℚ × ℚ)} (hd : 0 < covDet f) :
    0 < Real.sqrt ((covDet f : ℚ) : ℝ) :=
  Real.sqrt_pos.mpr (by exact_mod_cast hd)

lemma twissCore_detpos (f : List (ℚ × ℚ)) (h2 : ¬ f.length < 2)
    (hd : 0 < covDet f) :
    twissCore f =
      ⟨some (Real.sqrt ((covDet f : ℚ) : ℝ)),
       some (-(covXT f : ℝ) / Real.sqrt ((covDet f : ℚ) : ℝ)),
       some ((covXX f : ℝ) / Real.sqrt ((covDet f : ℚ) : ℝ)),
       some ((covTT f : ℝ) / Real.sqrt ((covDet f : ℚ) : ℝ))⟩ := by
  simp only [twissCore]
  rw [if_neg h2, ← covDet_def f, if_pos hd, if_pos (sqrt_covDet_pos hd),
    if_pos (sqrt_covDet_pos hd), if_pos (sqrt_covDet_pos hd)]

lemma twissCore_detnonpos (f : List (ℚ × ℚ)) (h2 : ¬ f.length < 2)
    (hd : covDet f ≤ 0) :
    twissCore f = ⟨none, none, none, none⟩ := by
  simp only [twissCore]
  rw [if_neg h2, ← covDet_def f, if_neg (not_lt.mpr hd)]

lemma rmsCore_eval (f : List ℚ) (h : f ≠ []) :
    rmsCore f =
      some (Real.sqrt ((sqDevSum f / (f.length : ℚ) : ℚ) : ℝ)) := by
  simp only [rmsCore]
  rw [if_neg (by simpa [List.length_eq_zero] using h)]

lemma listMean_perm {l l' : List ℚ} (h : l.Perm l') :
    listMean l = listMean l' := by
  unfold listMean
  rw [h.sum_eq, h.length_eq]

lemma sqDevSum_perm {l l' : List ℚ} (h : l.Perm l') :
    sqDevSum l = sqDevSum l' := by
  unfold sqDevSum
  rw [listMean_perm h]
  exact (h.map _).sum_eq

lemma prodDevSum_perm {l l' : List (ℚ × ℚ)} (h : l.Perm l') :
    prodDevSum l = prodDevSum l' := by
  unfold prodDevSum
  rw [listMean_perm (h.map Prod.fst), listMean_perm (h.map Prod.snd)]
  exact (h.map _).sum_eq

lemma covXX_perm {l l' : List (ℚ × ℚ)} (h : l.Perm l') :
    covXX l = covXX l' := by
  unfold covXX
  rw [sqDevSum_perm (h.map Prod.fst), h.length_eq]

lemma covXT_perm {l l' : List (ℚ × ℚ)} (h : l.Perm l') :
    covXT l = covXT l' := by
  unfold covXT
  rw [prodDevSum_perm h, h.length_eq]

lemma covTT_perm {l l' : List (ℚ × ℚ)} (h : l.Perm l') :
    covTT l = covTT l' := by
  unfold covTT
  rw [sqDevSum_perm (h.map Prod.snd), h.length_eq]

lemma twissCore_perm {l l' : List (ℚ × ℚ)} (h : l.Perm l') :
    twissCore l = twissCore l' := by
  simp only [twissCore]
  rw [h.length_eq, covXX_perm h, covXT_perm h, covTT_perm h]

lemma rmsCore_perm {l l' : List ℚ} (h : l.Perm l') :
    rmsCore l = rmsCore l' := by
  simp only [rmsCore]
  rw [h.length_eq, sqDevSum_perm h]

lemma sqDevSum_nonneg (l : List ℚ) : 0 ≤ sqDevSum l := by
  refine List.sum_nonneg ?_
  intro a ha
  rcases List.mem_map.mp ha with ⟨v, -, rfl⟩
  exact sq_nonneg _

lemma covXX_nonneg {f : List (ℚ × ℚ)} (h2 : 2 ≤ f.length) :
    0 ≤ covXX f := by
  refine div_nonneg (sqDevSum_nonneg _) ?_
  have : (2 : ℚ) ≤ (f.length : ℚ) := by exact_mod_cast h2
  linarith

lemma covTT_nonneg {f : List (ℚ × ℚ)} (h2 : 2 ≤ f.length) :
    0 ≤ covTT f := by
  refine div_nonneg (sqDevSum_nonneg _) ?_
  have : (2 : ℚ) ≤ (f.length : ℚ) := by exact_mod_cast h2
  linarith

lemma hfil_example :
    filteredPairs pos_lim angle_lim_mrad
        (([some 0, some 1, some 0] : List (Option ℚ)).zip
          [some 0, some 0, some 1]) =
      [((0 : ℚ), (0 : ℚ)), (1, 0), (0, 1)] := by decide

lemma hdet_example :
    covDet [((0 : ℚ), (0 : ℚ)), (1, 0), (0, 1)] = 1 / 12 := by
  norm_num [covDet, covXX, covTT, covXT, sqDevSum, prodDevSum, listMean]

lemma hdetpos_example : 0 < covDet [((0 : ℚ), (0 : ℚ)), (1, 0), (0, 1)] := by
  rw [hdet_example]
  norm_num

lemma eval_eps_example :
    (compute_emittance_and_twiss pos_lim angle_lim_mrad
        [some 0, some 1, some 0] [some 0, some 0, some 1]).eps =
      some (Real.sqrt ((covDet [((0 : ℚ), (0 : ℚ)), (1, 0), (0, 1)] : ℚ) : ℝ)) := by
  unfold compute_emittance_and_twiss
  rw [hfil_example,
    twissCore_detpos _ (by decide) hdetpos_example]

/-! ### Claim theorems -/

/-- C1: for every position/angle sample pair whose filtered length is at
least 2, `compute_emittance_and_twiss` returns `emittance = sqrt(det)` when
the covariance determinant is strictly positive, and the undefined sentinel
for the emittance when `det ≤ 0`. -/
theorem C1_emittance_sqrt_det (pb ab : Bounds) (x theta : List (Option ℚ))
    (h2 : 2 ≤ (filteredPairs pb ab (x.zip theta)).length) :
    (0 < covDet (filteredPairs pb ab (x.zip theta)) →
      (compute_emittance_and_twiss pb ab x theta).eps =
        some (Real.sqrt ((covDet (filteredPairs pb ab (x.zip theta)) : ℚ) : ℝ))) ∧
    (covDet (filteredPairs pb ab (x.zip theta)) ≤ 0 →
      (compute_emittance_and_twiss pb ab x theta).eps = none) := by
  constructor
  · intro hd
    unfold compute_emittance_and_twiss
    rw [twissCore_detpos _ (not_lt.mpr h2) hd]
  · intro hd
    unfold compute_emittance_and_twiss
    rw [twissCore_detnonpos _ (not_lt.mpr h2) hd]

/-- Witness for C1, the spec's concrete scenario 2: perfectly correlated
samples `[1,2,3,4,5]` versus `[1,2,3,4,5]` with bounds `[0,10]` give
determinant exactly 0 and an undefined emittance. -/
theorem C1_witness :
    2 ≤ (filteredPairs (0, 10) (0, 10)
        (([some 1, some 2, some 3, some 4, some 5] : List (Option ℚ)).zip
          [some 1, some 2, some 3, some 4, some 5])).length ∧
    covDet (filteredPairs (0, 10) (0, 10)
        (([some 1, some 2, some 3, some 4, some 5] : List (Option ℚ)).zip
          [some 1, some 2, some 3, some 4, some 5])) = 0 ∧
    (compute_emittance_and_twiss (0, 10) (0, 10)
        [some 1, some 2, some 3, some 4, some 5]
        [some 1, some 2, some 3, some 4, some 5]).eps = none := by
  have hfil : filteredPairs (0, 10) (0, 10)
      (([some 1, some 2, some 3, some 4, some 5] : List (Option ℚ)).zip
        [some 1, some 2, some 3, some 4, some 5]) =
      [((1 : ℚ), (1 : ℚ)), (2, 2), (3, 3), (4, 4), (5, 5)] := by decide
  have hdet : covDet (filteredPairs (0, 10) (0, 10)
      (([some 1, some 2, some 3, some 4, some 5] : List (Option ℚ)).zip
        [some 1, some 2, some 3, some 4, some 5])) = 0 := by
    rw [hfil]
    norm_num [covDet, covXX, covTT, covXT, sqDevSum, prodDevSum, listMean]
  have hlen : 2 ≤ (filteredPairs (0, 10) (0, 10)
      (([some 1, some 2, some 3, some 4, some 5] : List (Option ℚ)).zip
        [some 1, some 2, some 3, some 4, some 5])).length := by
    rw [hfil]; decide
  exact ⟨hlen, hdet,
    (C1_emittance_sqrt_det (0, 10) (0, 10) _ _ hlen).2 (le_of_eq hdet)⟩

/-- C3: whenever fewer than 2 indices pass the filter mask,
`compute_emittance_and_twiss` returns the undefined sentinel for all four
outputs. -/
theorem C3_all_undefined_when_small (pb ab : Bounds)
    (x theta : List (Option ℚ))
    (h : (filteredPairs pb ab (x.zip theta)).length < 2) :
    compute_emittance_and_twiss pb ab x theta = ⟨none, none, none, none⟩ := by
  unfold compute_emittance_and_twiss
  exact twissCore_short _ h

/-- Witness for C3: a single in-bounds sample gives filtered length 1 and
the all-undefined result. -/
theorem C3_witness :
    (filteredPairs pos_lim angle_lim_mrad
        (([some 1] : List (Option ℚ)).zip [some 1])).length < 2 ∧
    compute_emittance_and_twiss pos_lim angle_lim_mrad [some 1] [some 1] =
      ⟨none, none, none, none⟩ :=
  ⟨by decide, C3_all_undefined_when_small _ _ _ _ (by decide)⟩

/-- C7: `compute_rms_size` returns the undefined sentinel exactly when the
filtered position sequence is empty. -/
theorem C7_rms_none_iff_empty (pb : Bounds) (x : List (Option ℚ)) :
    compute_rms_size pb x = none ↔ filteredPos pb x = [] := by
  unfold compute_rms_size
  constructor
  · intro h
    by_contra hne
    rw [rmsCore_eval _ hne] at h
    exact Option.some_ne_none _ h
  · intro h
    rw [h]
    simp [rmsCore]

/-- Witness for C7: a sequence whose only entries are out of bounds or
non-finite filters to the empty list and yields the sentinel. -/
theorem C7_witness :
    compute_rms_size pos_lim [some 7, none] = none :=
  (C7_rms_none_iff_empty pos_lim [some 7, none]).mpr (by decide)

/-- C2: the covariance terms of `compute_emittance_and_twiss` use the
unbiased divisor `n - 1` (each term multiplied by `n - 1` recovers the
deviation sum), while `compute_rms_size` divides the deviation sum by `n`
(its mean-square argument times `n` recovers the deviation sum). -/
theorem C2_normalization_asymmetry :
    (∀ f : List (ℚ × ℚ), 2 ≤ f.length →
      covXX f * ((f.length : ℚ) - 1) = sqDevSum (f.map Prod.fst) ∧
      covXT f * ((f.length : ℚ) - 1) = prodDevSum f ∧
      covTT f * ((f.length : ℚ) - 1) = sqDevSum (f.map Prod.snd)) ∧
    (∀ (pb : Bounds) (x : List (Option ℚ)), filteredPos pb x ≠ [] →
      ∃ m : ℚ, m * ((filteredPos pb x).length : ℚ) =
          sqDevSum (filteredPos pb x) ∧
        compute_rms_size pb x = some (Real.sqrt ((m : ℚ) : ℝ))) := by
  constructor
  · intro f h2
    have hq : (2 : ℚ) ≤ (f.length : ℚ) := by exact_mod_cast h2
    have hne : ((f.length : ℚ) - 1) ≠ 0 := by
      have : (0 : ℚ) < (f.length : ℚ) - 1 := by linarith
      exact this.ne'
    exact ⟨div_mul_cancel₀ _ hne, div_mul_cancel₀ _ hne,
      div_mul_cancel₀ _ hne⟩
  · intro pb x hne
    have hlen : ((filteredPos pb x).length : ℚ) ≠ 0 := by
      exact_mod_cast (List.length_pos.mpr hne).ne'
    refine ⟨sqDevSum (filteredPos pb x) / ((filteredPos pb x).length : ℚ),
      div_mul_cancel₀ _ hlen, ?_⟩
    unfold compute_rms_size
    rw [rmsCore_eval _ hne]

/-- Witness for C2: the two-sample list `[(0,0),(1,0)]` for the covariance
normalization and the positions `[0,1]` for the RMS normalization. -/
theorem C2_witness :
    covXX [((0 : ℚ), (0 : ℚ)), (1, 0)] *
        (([((0 : ℚ), (0 : ℚ)), (1, 0)].length : ℚ) - 1) =
      sqDevSum ([((0 : ℚ), (0 : ℚ)), (1, 0)].map Prod.fst) ∧
    ∃ m : ℚ, m * ((filteredPos pos_lim [some 0, some 1]).length : ℚ) =
        sqDevSum (filteredPos pos_lim [some 0, some 1]) ∧
      compute_rms_size pos_lim [some 0, some 1] =
        some (Real.sqrt ((m : ℚ) : ℝ)) :=
  ⟨(C2_normalization_asymmetry.1 _ (by decide)).1,
    C2_normalization_asymmetry.2 pos_lim _ (by decide)⟩

/-- C4: if the emittance is the undefined sentinel then so are alpha, beta
and gamma; if the emittance is a defined positive value `e` then
`alpha = -σ_pa / e`, `beta = σ_pp / e`, `gamma = σ_aa / e`. -/
theorem C4_twiss_coupling (pb ab : Bounds) (x theta : List (Option ℚ)) :
    ((compute_emittance_and_twiss pb ab x theta).eps = none →
      (compute_emittance_and_twiss pb ab x theta).alpha = none ∧
      (compute_emittance_and_twiss pb ab x theta).beta = none ∧
      (compute_emittance_and_twiss pb ab x theta).gamma = none) ∧
    (∀ e : ℝ, (compute_emittance_and_twiss pb ab x theta).eps = some e →
      0 < e →
      (compute_emittance_and_twiss pb ab x theta).alpha =
        some (-(covXT (filteredPairs pb ab (x.zip theta)) : ℝ) / e) ∧
      (compute_emittance_and_twiss pb ab x theta).beta =
        some ((covXX (filteredPairs pb ab (x.zip theta)) : ℝ) / e) ∧
      (compute_emittance_and_twiss pb ab x theta).gamma =
        some ((covTT (filteredPairs pb ab (x.zip theta)) : ℝ) / e)) := by
  unfold compute_emittance_and_twiss
  by_cases h2 : (filteredPairs pb ab (x.zip theta)).length < 2
  · rw [twissCore_short _ h2]
    exact ⟨fun _ => ⟨rfl, rfl, rfl⟩, fun e he => absurd he (by simp)⟩
  · by_cases hd : 0 < covDet (filteredPairs pb ab (x.zip theta))
    · rw [twissCore_detpos _ h2 hd]
      refine ⟨fun h => absurd h (by simp), fun e he _ => ?_⟩
      obtain rfl : Real.sqrt
          ((covDet (filteredPairs pb ab (x.zip theta)) : ℚ) : ℝ) = e :=
        Option.some.inj he
      exact ⟨rfl, rfl, rfl⟩
    · rw [twissCore_detnonpos _ h2 (not_lt.mp hd)]
      exact ⟨fun _ => ⟨rfl, rfl, rfl⟩, fun e he => absurd he (by simp)⟩

/-- Witness for C4: the samples `x = [0,1,0]`, `θ = [0,0,1]` have positive
determinant `1/12`, so the defined emittance forces
`beta = σ_pp / emittance`. -/
theorem C4_witness :
    (compute_emittance_and_twiss pos_lim angle_lim_mrad
        [some 0, some 1, some 0] [some 0, some 0, some 1]).beta =
      some ((covXX [((0 : ℚ), (0 : ℚ)), (1, 0), (0, 1)] : ℝ) /
        Real.sqrt ((covDet [((0 : ℚ), (0 : ℚ)), (1, 0), (0, 1)] : ℚ) : ℝ)) := by
  have h := (C4_twiss_coupling pos_lim angle_lim_mrad
      [some 0, some 1, some 0] [some 0, some 0, some 1]).2 _
    eval_eps_example (sqrt_covDet_pos hdetpos_example)
  rw [h.2.1, hfil_example]

/-- Counterexample to C5 as stated: the all-identical sequence `[1, 1]`
with bounds `[-1/2, 1/2]` filters to the empty list, so `compute_rms_size`
returns the undefined sentinel, not 0. -/
theorem C5_counterexample :
    compute_rms_size (-(1 / 2 : ℚ), 1 / 2) [some 1, some 1] ≠
      some (0 : ℝ) := by
  have h : filteredPos (-(1 / 2 : ℚ), 1 / 2) [some 1, some 1] = [] := by
    norm_num [filteredPos, List.filterMap_cons]
  unfold compute_rms_size
  rw [h]
  simp [rmsCore]

/-- C5 (amended): for every position sequence whose FILTERED values are
nonempty and all identical (zero variance), `compute_rms_size` returns 0;
in particular `[-1, 0, 1]` with bounds `[-1/2, 1/2]` keeps exactly the
single element `0` and returns 0. -/
theorem C5_rms_zero_of_constant (pb : Bounds) (x : List (Option ℚ))
    (hne : filteredPos pb x ≠ [])
    (hconst : ∀ a ∈ filteredPos pb x, ∀ b ∈ filteredPos pb x, a = b) :
    compute_rms_size pb x = some (0 : ℝ) := by
  unfold compute_rms_size
  rw [rmsCore_eval _ hne]
  obtain ⟨c, t, hct⟩ := List.exists_cons_of_ne_nil hne
  have hcmem : c ∈ filteredPos pb x := by
    rw [hct]; exact List.mem_cons_self c t
  have hall : ∀ b ∈ filteredPos pb x, b = c :=
    fun b hb => hconst b hb c hcmem
  have hlen : ((filteredPos pb x).length : ℚ) ≠ 0 := by
    exact_mod_cast (List.length_pos.mpr hne).ne'
  have hmean : listMean (filteredPos pb x) = c := by
    have hrep : filteredPos pb x =
        List.replicate (filteredPos pb x).length c :=
      List.eq_replicate_of_mem hall
    unfold listMean
    rw [hrep, List.sum_replicate, List.length_replicate, nsmul_eq_mul]
    exact mul_div_cancel_left₀ c hlen
  have hsq : sqDevSum (filteredPos pb x) = 0 := by
    unfold sqDevSum
    refine List.sum_eq_zero ?_
    intro a ha
    rcases List.mem_map.mp ha with ⟨v, hv, rfl⟩
    rw [hmean, hall v hv]
    ring
  rw [hsq]
  norm_num

/-- Witness for C5 (amended), the spec's concrete scenario 3:
`position = [-1, 0, 1]` with bounds `[-1/2, 1/2]` keeps only `0` and
the RMS size is 0. -/
lemma hfil_scenario3 :
    filteredPos (-(1 / 2 : ℚ), 1 / 2) [some (-1), some 0, some 1] = [0] := by
  norm_num [filteredPos, List.filterMap_cons]

theorem C5_witness :
    filteredPos (-(1 / 2 : ℚ), 1 / 2) [some (-1), some 0, some 1] ≠ [] ∧
    compute_rms_size (-(1 / 2 : ℚ), 1 / 2) [some (-1), some 0, some 1] =
      some (0 : ℝ) :=
  ⟨by rw [hfil_scenario3]; exact List.cons_ne_nil 0 [],
    C5_rms_zero_of_constant _ _
      (by rw [hfil_scenario3]; exact List.cons_ne_nil 0 [])
      (by rw [hfil_scenario3]; intro a ha b hb
          rw [List.mem_singleton.mp ha, List.mem_singleton.mp hb])⟩

/-- C6: the filter keeps exactly the indices whose position and angle are
both finite and inside the closed intervals (bound values included), and a
pair with a non-finite component is dropped regardless of the bounds. -/
theorem C6_mask_characterization (pb ab : Bounds) :
    (∀ (l : List (Option ℚ × Option ℚ)) (vx vt : ℚ),
      (vx, vt) ∈ filteredPairs pb ab l ↔
        ((some vx, some vt) ∈ l ∧
          pb.1 ≤ vx ∧ vx ≤ pb.2 ∧ ab.1 ≤ vt ∧ vt ≤ ab.2)) ∧
    (∀ (ov : Option ℚ) (l : List (Option ℚ × Option ℚ)),
      filteredPairs pb ab ((none, ov) :: l) = filteredPairs pb ab l) ∧
    (∀ (ov : Option ℚ) (l : List (Option ℚ × Option ℚ)),
      filteredPairs pb ab ((ov, none) :: l) = filteredPairs pb ab l) := by
  refine ⟨?_, ?_, ?_⟩
  · intro l vx vt
    unfold filteredPairs
    rw [List.mem_filterMap]
    constructor
    · rintro ⟨⟨ox, ot⟩, hmem, hf⟩
      match ox, ot with
      | some a, some b =>
        simp only at hf
        split at hf
        · rcases Prod.mk.injEq _ _ _ _ ▸ Option.some.inj hf with ⟨ha, hb⟩
          subst ha; subst hb
          exact ⟨hmem, by assumption⟩
        · exact absurd hf (by simp)
      | none, _ => exact absurd hf (by simp)
      | some a, none => exact absurd hf (by simp)
    · rintro ⟨hmem, h1, h2, h3, h4⟩
      exact ⟨(some vx, some vt), hmem, by simp [h1, h2, h3, h4]⟩
  · intro ov l
    unfold filteredPairs
    rw [List.filterMap_cons_none]
    cases ov <;> rfl
  · intro ov l
    unfold filteredPairs
    rw [List.filterMap_cons_none]
    cases ov <;> rfl

/-- Witness for C6: the boundary pair `(0, 10)` with bounds `[0,10]` is
kept (closed interval), and a non-finite position is dropped. -/
theorem C6_witness :
    ((0 : ℚ), (10 : ℚ)) ∈
      filteredPairs (0, 10) (0, 10) [(some 0, some 10)] ∧
    filteredPairs (0, 10) (0, 10)
        ((none, some 3) :: [(some 0, some 10)]) =
      filteredPairs (0, 10) (0, 10) [(some 0, some 10)] :=
  ⟨((C6_mask_characterization (0, 10) (0, 10)).1 _ 0 10).mpr
      ⟨List.mem_singleton.mpr rfl, by norm_num⟩,
    (C6_mask_characterization (0, 10) (0, 10)).2.1 (some 3) _⟩

/-- C8: both operations are total (they always produce a result value) and
internally guarded: a defined emittance is the square root of a strictly
positive determinant, each of the three divisions (alpha, beta, gamma)
arises only from a division by a strictly positive emittance, and the RMS
square root is applied only to a non-negative mean of squares; degeneracy
is signaled solely by the sentinel. -/
theorem C8_total_and_guarded (pb ab : Bounds) (x theta : List (Option ℚ)) :
    (∀ e : ℝ, (compute_emittance_and_twiss pb ab x theta).eps = some e →
      0 < covDet (filteredPairs pb ab (x.zip theta)) ∧
      e = Real.sqrt ((covDet (filteredPairs pb ab (x.zip theta)) : ℚ) : ℝ)) ∧
    (∀ a : ℝ, (compute_emittance_and_twiss pb ab x theta).alpha = some a →
      ∃ e : ℝ, 0 < e ∧
        (compute_emittance_and_twiss pb ab x theta).eps = some e ∧
        a = -(covXT (filteredPairs pb ab (x.zip theta)) : ℝ) / e) ∧
    (∀ b : ℝ, (compute_emittance_and_twiss pb ab x theta).beta = some b →
      ∃ e : ℝ, 0 < e ∧
        (compute_emittance_and_twiss pb ab x theta).eps = some e ∧
        b = (covXX (filteredPairs pb ab (x.zip theta)) : ℝ) / e) ∧
    (∀ g : ℝ, (compute_emittance_and_twiss pb ab x theta).gamma = some g →
      ∃ e : ℝ, 0 < e ∧
        (compute_emittance_and_twiss pb ab x theta).eps = some e ∧
        g = (covTT (filteredPairs pb ab (x.zip theta)) : ℝ) / e) ∧
    (filteredPos pb x ≠ [] →
      0 ≤ sqDevSum (filteredPos pb x) / ((filteredPos pb x).length : ℚ) ∧
      compute_rms_size pb x =
        some (Real.sqrt ((sqDevSum (filteredPos pb x) /
          ((filteredPos pb x).length : ℚ) : ℚ) : ℝ))) := by
  refine ⟨?_, ?_, ?_, ?_, ?_⟩
  · intro e he
    unfold compute_emittance_and_twiss at he
    by_cases h2 : (filteredPairs pb ab (x.zip theta)).length < 2
    · rw [twissCore_short _ h2] at he
      exact absurd he (by simp)
    · by_cases hd : 0 < covDet (filteredPairs pb ab (x.zip theta))
      · rw [twissCore_detpos _ h2 hd] at he
        exact ⟨hd, (Option.some.inj he).symm⟩
      · rw [twissCore_detnonpos _ h2 (not_lt.mp hd)] at he
        exact absurd he (by simp)
  · intro a ha
    unfold compute_emittance_and_twiss at ha ⊢
    by_cases h2 : (filteredPairs pb ab (x.zip theta)).length < 2
    · rw [twissCore_short _ h2] at ha
      exact absurd ha (by simp)
    · by_cases hd : 0 < covDet (filteredPairs pb ab (x.zip theta))
      · rw [twissCore_detpos _ h2 hd] at ha
        rw [twissCore_detpos _ h2 hd]
        exact ⟨Real.sqrt ((covDet (filteredPairs pb ab (x.zip theta)) : ℚ) : ℝ),
          sqrt_covDet_pos hd, rfl, (Option.some.inj ha).symm⟩
      · rw [twissCore_detnonpos _ h2 (not_lt.mp hd)] at ha
        exact absurd ha (by simp)
  · intro b hb
    unfold compute_emittance_and_twiss at hb ⊢
    by_cases h2 : (filteredPairs pb ab (x.zip theta)).length < 2
    · rw [twissCore_short _ h2] at hb
      exact absurd hb (by simp)
    · by_cases hd : 0 < covDet (filteredPairs pb ab (x.zip theta))
      · rw [twissCore_detpos _ h2 hd] at hb
        rw [twissCore_detpos _ h2 hd]
        exact ⟨Real.sqrt ((covDet (filteredPairs pb ab (x.zip theta)) : ℚ) : ℝ),
          sqrt_covDet_pos hd, rfl, (Option.some.inj hb).symm⟩
      · rw [twissCore_detnonpos _ h2 (not_lt.mp hd)] at hb
        exact absurd hb (by simp)
  · intro g hg
    unfold compute_emittance_and_twiss at hg ⊢
    by_cases h2 : (filteredPairs pb ab (x.zip theta)).length < 2
    · rw [twissCore_short _ h2] at hg
      exact absurd hg (by simp)
    · by_cases hd : 0 < covDet (filteredPairs pb ab (x.zip theta))
      · rw [twissCore_detpos _ h2 hd] at hg
        rw [twissCore_detpos _ h2 hd]
        exact ⟨Real.sqrt ((covDet (filteredPairs pb ab (x.zip theta)) : ℚ) : ℝ),
          sqrt_covDet_pos hd, rfl, (Option.some.inj hg).symm⟩
      · rw [twissCore_detnonpos _ h2 (not_lt.mp hd)] at hg
        exact absurd hg (by simp)
  · intro hne
    have hnum : 0 ≤ sqDevSum (filteredPos pb x) := sqDevSum_nonneg _
    have hden : (0 : ℚ) ≤ ((filteredPos pb x).length : ℚ) := by positivity
    refine ⟨div_nonneg hnum hden, ?_⟩
    unfold compute_rms_size
    rw [rmsCore_eval _ hne]

/-- Witness for C8: at the samples `x = [0,1,0]`, `θ = [0,0,1]` the defined
emittance certifies a strictly positive determinant, the defined beta and
gamma certify strictly positive emittance divisors, and the positions
`[0,1]` give a non-negative mean-square argument. -/
theorem C8_witness :
    0 < covDet [((0 : ℚ), (0 : ℚ)), (1, 0), (0, 1)] ∧
    (∃ e : ℝ, 0 < e ∧
      (compute_emittance_and_twiss pos_lim angle_lim_mrad
        [some 0, some 1, some 0] [some 0, some 0, some 1]).eps = some e ∧
      (covXX [((0 : ℚ), (0 : ℚ)), (1, 0), (0, 1)] : ℝ) /
          Real.sqrt ((covDet [((0 : ℚ), (0 : ℚ)), (1, 0), (0, 1)] : ℚ) : ℝ) =
        (covXX [((0 : ℚ), (0 : ℚ)), (1, 0), (0, 1)] : ℝ) / e) ∧
    (∃ e : ℝ, 0 < e ∧
      (compute_emittance_and_twiss pos_lim angle_lim_mrad
        [some 0, some 1, some 0] [some 0, some 0, some 1]).eps = some e ∧
      (covTT [((0 : ℚ), (0 : ℚ)), (1, 0), (0, 1)] : ℝ) /
          Real.sqrt ((covDet [((0 : ℚ), (0 : ℚ)), (1, 0), (0, 1)] : ℚ) : ℝ) =
        (covTT [((0 : ℚ), (0 : ℚ)), (1, 0), (0, 1)] : ℝ) / e) ∧
    0 ≤ sqDevSum (filteredPos pos_lim [some 0, some 1]) /
        ((filteredPos pos_lim [some 0, some 1]).length : ℚ) := by
  have heval := C8_total_and_guarded pos_lim angle_lim_mrad
      [some 0, some 1, some 0] [some 0, some 0, some 1]
  have hbeta : (compute_emittance_and_twiss pos_lim angle_lim_mrad
      [some 0, some 1, some 0] [some 0, some 0, some 1]).beta =
        some ((covXX [((0 : ℚ), (0 : ℚ)), (1, 0), (0, 1)] : ℝ) /
          Real.sqrt ((covDet [((0 : ℚ), (0 : ℚ)), (1, 0), (0, 1)] : ℚ) : ℝ)) := by
    unfold compute_emittance_and_twiss
    rw [hfil_example, twissCore_detpos _ (by decide) hdetpos_example]
  have hgamma : (compute_emittance_and_twiss pos_lim angle_lim_mrad
      [some 0, some 1, some 0] [some 0, some 0, some 1]).gamma =
        some ((covTT [((0 : ℚ), (0 : ℚ)), (1, 0), (0, 1)] : ℝ) /
          Real.sqrt ((covDet [((0 : ℚ), (0 : ℚ)), (1, 0), (0, 1)] : ℚ) : ℝ)) := by
    unfold compute_emittance_and_twiss
    rw [hfil_example, twissCore_detpos _ (by decide) hdetpos_example]
  refine ⟨?_, ?_, ?_, ?_⟩
  · have h := heval.1 _ eval_eps_example
    rw [hfil_example] at h
    exact h.1
  · obtain ⟨e, he, heps, hval⟩ := heval.2.2.1 _ hbeta
    rw [hfil_example] at hval
    exact ⟨e, he, heps, hval⟩
  · obtain ⟨e, he, heps, hval⟩ := heval.2.2.2.1 _ hgamma
    rw [hfil_example] at hval
    exact ⟨e, he, heps, hval⟩
  · exact ((C8_total_and_guarded pos_lim angle_lim_mrad
        [some 0, some 1] [some 0, some 0]).2.2.2.2 (by decide)).1

/-- C9: whenever the outputs are defined, the emittance is strictly
positive, beta and gamma are non-negative, and the RMS size is
non-negative. -/
theorem C9_sign_invariants (pb ab : Bounds) (x theta : List (Option ℚ)) :
    (∀ e : ℝ, (compute_emittance_and_twiss pb ab x theta).eps = some e →
      0 < e) ∧
    (∀ b : ℝ, (compute_emittance_and_twiss pb ab x theta).beta = some b →
      0 ≤ b) ∧
    (∀ g : ℝ, (compute_emittance_and_twiss pb ab x theta).gamma = some g →
      0 ≤ g) ∧
    (∀ r : ℝ, compute_rms_size pb x = some r → 0 ≤ r) := by
  refine ⟨?_, ?_, ?_, ?_⟩
  · intro e he
    unfold compute_emittance_and_twiss at he
    by_cases h2 : (filteredPairs pb ab (x.zip theta)).length < 2
    · rw [twissCore_short _ h2] at he
      exact absurd he (by simp)
    · by_cases hd : 0 < covDet (filteredPairs pb ab (x.zip theta))
      · rw [twissCore_detpos _ h2 hd] at he
        rw [← Option.some.inj he]
        exact sqrt_covDet_pos hd
      · rw [twissCore_detnonpos _ h2 (not_lt.mp hd)] at he
        exact absurd he (by simp)
  · intro b hb
    unfold compute_emittance_and_twiss at hb
    by_cases h2 : (filteredPairs pb ab (x.zip theta)).length < 2
    · rw [twissCore_short _ h2] at hb
      exact absurd hb (by simp)
    · by_cases hd : 0 < covDet (filteredPairs pb ab (x.zip theta))
      · rw [twissCore_detpos _ h2 hd] at hb
        rw [← Option.some.inj hb]
        have hxx : (0 : ℝ) ≤ (covXX (filteredPairs pb ab (x.zip theta)) : ℝ) := by
          exact_mod_cast covXX_nonneg (not_lt.mp h2)
        exact div_nonneg hxx (Real.sqrt_nonneg _)
      · rw [twissCore_detnonpos _ h2 (not_lt.mp hd)] at hb
        exact absurd hb (by simp)
  · intro g hg
    unfold compute_emittance_and_twiss at hg
    by_cases h2 : (filteredPairs pb ab (x.zip theta)).length < 2
    · rw [twissCore_short _ h2] at hg
      exact absurd hg (by simp)
    · by_cases hd : 0 < covDet (filteredPairs pb ab (x.zip theta))
      · rw [twissCore_detpos _ h2 hd] at hg
        rw [← Option.some.inj hg]
        have htt : (0 : ℝ) ≤ (covTT (filteredPairs pb ab (x.zip theta)) : ℝ) := by
          exact_mod_cast covTT_nonneg (not_lt.mp h2)
        exact div_nonneg htt (Real.sqrt_nonneg _)
      · rw [twissCore_detnonpos _ h2 (not_lt.mp hd)] at hg
        exact absurd hg (by simp)
  · intro r hr
    unfold compute_rms_size at hr
    by_cases hne : filteredPos pb x = []
    · rw [hne] at hr
      simp [rmsCore] at hr
    · rw [rmsCore_eval _ hne] at hr
      rw [← Option.some.inj hr]
      exact Real.sqrt_nonneg _

/-- Witness for C9: at `x = [0,1,0]`, `θ = [0,0,1]` the defined emittance
is strictly positive, and the RMS of `[0,1]` is non-negative. -/
theorem C9_witness :
    0 < Real.sqrt ((covDet [((0 : ℚ), (0 : ℚ)), (1, 0), (0, 1)] : ℚ) : ℝ) ∧
    0 ≤ Real.sqrt ((sqDevSum (filteredPos pos_lim [some 0, some 1]) /
        ((filteredPos pos_lim [some 0, some 1]).length : ℚ) : ℚ) : ℝ) := by
  constructor
  · exact (C9_sign_invariants pos_lim angle_lim_mrad
      [some 0, some 1, some 0] [some 0, some 0, some 1]).1 _ eval_eps_example
  · refine (C9_sign_invariants pos_lim angle_lim_mrad
      [some 0, some 1] []).2.2.2 _ ?_
    unfold compute_rms_size
    rw [rmsCore_eval _ (by decide)]

/-- C10: both operations are invariant under permutation of the samples:
permuting the zipped position/angle pairs leaves all four Twiss outputs
unchanged, and permuting the position sequence leaves the RMS size
unchanged. -/
theorem C10_permutation_invariance (pb ab : Bounds) :
    (∀ x theta y psi : List (Option ℚ),
      (x.zip theta).Perm (y.zip psi) →
      compute_emittance_and_twiss pb ab x theta =
        compute_emittance_and_twiss pb ab y psi) ∧
    (∀ x y : List (Option ℚ), x.Perm y →
      compute_rms_size pb x = compute_rms_size pb y) := by
  constructor
  · intro x theta y psi hp
    unfold compute_emittance_and_twiss
    exact twissCore_perm (hp.filterMap _)
  · intro x y hp
    unfold compute_rms_size
    exact rmsCore_perm (hp.filterMap _)

/-- Witness for C10: swapping the two samples of `x = [1,2]`, `θ = [3,4]`
leaves the Twiss outputs unchanged, and swapping `[1,2]` leaves the RMS
size unchanged. -/
theorem C10_witness :
    compute_emittance_and_twiss pos_lim angle_lim_mrad
        [some 1, some 2] [some 3, some 4] =
      compute_emittance_and_twiss pos_lim angle_lim_mrad
        [some 2, some 1] [some 4, some 3] ∧
    compute_rms_size pos_lim [some 1, some 2] =
      compute_rms_size pos_lim [some 2, some 1] := by
  constructor
  · refine (C10_permutation_invariance pos_lim angle_lim_mrad).1 _ _ _ _ ?_
    show ([(some 1, some 3), (some 2, some 4)] :
        List (Option ℚ × Option ℚ)).Perm [(some 2, some 4), (some 1, some 3)]
    exact List.Perm.swap _ _ _
  · exact (C10_permutation_invariance pos_lim angle_lim_mrad).2 _ _
      (List.Perm.swap _ _ _)
